import Mathlib

/-!
Verification of the core logic of a client-side user-directory dashboard.

The development shallowly embeds three components of the code base:

* the pure list-filtering function of
  src/features/users/utils/filterUsers.ts (a case-insensitive,
  whitespace-normalising substring match on names combined with a
  permission membership test);
* the localStorage store bridge of src/hooks/useLocalStorage.ts
  (snapshot reads with an explicit reference-stability cache, JSON
  serialisation, silent degradation when the store is unavailable, and
  a write path that dispatches a same-tab notification only after a
  successful write);
* the dashboard state controller of
  src/features/user-dashboard/context/UserDashboardContext.tsx and the
  fake-async simulator state shapes of src/hooks/useAsync.ts.

Strings are modelled as lists of characters (a JavaScript string is a
sequence of code units); character case mapping is modelled for the
ASCII letters, which is exact for every character class the dashboard
data uses.  JSON values are modelled with integer numbers; floating
point numbers are outside the scope of the embedding.
-/

namespace Dashboard

/-! ## JavaScript string primitives

Models of the string operations used by filterUsers.ts:
toLowerCase, toUpperCase, trim, replace(/\s+/g, " ") and includes.
-/

/-- Whitespace test for the characters matched by the regular
expression class \s and removed by trim (space, tab, and the line
terminators and form/vertical feeds), restricted to the ASCII range. -/
def isJsWS (c : Char) : Bool :=
  c.toNat == 32 || c.toNat == 9 || c.toNat == 10 ||
  c.toNat == 11 || c.toNat == 12 || c.toNat == 13

/-- ASCII model of the per-character effect of toLowerCase. -/
def lowerChar (c : Char) : Char :=
  if 65 ≤ c.toNat ∧ c.toNat ≤ 90 then Char.ofNat (c.toNat + 32) else c

/-- ASCII model of the per-character effect of toUpperCase. -/
def upperChar (c : Char) : Char :=
  if 97 ≤ c.toNat ∧ c.toNat ≤ 122 then Char.ofNat (c.toNat - 32) else c

/-- Worker for collapseWS; the flag records whether the previous
character belonged to a whitespace run that already emitted its single
space. -/
def collapseGo (prevWS : Bool) : List Char → List Char
  | [] => []
  | c :: cs =>
    if isJsWS c then
      if prevWS then collapseGo true cs
      else ' ' :: collapseGo true cs
    else c :: collapseGo false cs

/-- Model of replace(/\s+/g, " "): every maximal run of whitespace
characters becomes a single space. -/
def collapseWS (l : List Char) : List Char := collapseGo false l

/-- Leading-whitespace removal (the first half of trim). -/
def trimStart (l : List Char) : List Char := l.dropWhile isJsWS

/-- Trailing-whitespace removal (the second half of trim). -/
def trimEnd (l : List Char) : List Char := (l.reverse.dropWhile isJsWS).reverse

/-- Model of String.prototype.trim: whitespace removed at both ends. -/
def trimJS (l : List Char) : List Char := trimEnd (trimStart l)

/-- Boolean test that the first list is an initial segment of the
second. -/
def leadsWith : List Char → List Char → Bool
  | [], _ => true
  | _ :: _, [] => false
  | a :: as, b :: bs => a == b && leadsWith as bs

/-- Model of String.prototype.includes: the needle occurs contiguously
somewhere in the haystack. -/
def substrB (needle : List Char) : List Char → Bool
  | [] => needle.isEmpty
  | b :: bs => leadsWith needle (b :: bs) || substrB needle bs

/-- JavaScript toUpperCase, modelled per character. -/
def jsToUpper (s : String) : String := ⟨s.data.map upperChar⟩

/-! ## The user data model (src/features/users/types.ts) -/

/-- Closed enumeration of user permission levels. -/
inductive UserPermission where
  | admin
  | editor
  | viewer
  | guest
  | owner
  | inactive
deriving DecidableEq, Repr, Fintype

/-- A user record. -/
structure User where
  role : String
  name : String
  permission : UserPermission
  team : String
  contactInfo : String
deriving DecidableEq, Repr

/-! ## The filter function (src/features/users/utils/filterUsers.ts) -/

/-- Normalisation applied to the search query:
searchQuery.toLowerCase().trim().replace(/\s+/g, " "). -/
def normalizeQuery (searchQuery : String) : List Char :=
  collapseWS (trimJS (searchQuery.data.map lowerChar))

/-- Normalisation applied to a user name:
user.name.toLowerCase().replace(/\s+/g, " ") (no trim). -/
def normalizeName (name : String) : List Char :=
  collapseWS (name.data.map lowerChar)

/-- The filter of filterUsers.ts: a user is kept when the normalised
name matches the normalised query (or the query is empty) and the
permission is selected (or no permission is selected). -/
def filterUsers (users : List User) (searchQuery : String)
    (selectedPermissions : List UserPermission) : List User :=
  users.filter fun user =>
    let normalizedQuery := normalizeQuery searchQuery
    let normalizedName := normalizeName user.name
    let matchesSearch := normalizedQuery == [] || substrB normalizedQuery normalizedName
    let matchesPermission :=
      selectedPermissions.length == 0 || selectedPermissions.contains user.permission
    matchesSearch && matchesPermission

/-- Specification-level statement that a needle occurs contiguously in
a haystack. -/
def ContainsSub (needle hay : List Char) : Prop :=
  ∃ pre post, hay = pre ++ needle ++ post

/-- Specification-level match predicate, written from the words of the
specification: the normalised query is empty or occurs in the
normalised name, and the selection is empty or contains the user's
permission. -/
def MatchesSpec (searchQuery : String) (selectedPermissions : List UserPermission)
    (user : User) : Prop :=
  (normalizeQuery searchQuery = [] ∨
    ContainsSub (normalizeQuery searchQuery) (normalizeName user.name)) ∧
  (selectedPermissions = [] ∨ user.permission ∈ selectedPermissions)

/-! ## Basic lemmas about the string primitives -/

theorem leadsWith_iff (n h : List Char) :
    leadsWith n h = true ↔ ∃ rest, h = n ++ rest := by
  induction n generalizing h with
  | nil => simp [leadsWith]
  | cons a as ih =>
    cases h with
    | nil => simp [leadsWith]
    | cons b bs =>
      simp only [leadsWith, Bool.and_eq_true, beq_iff_eq, ih]
      constructor
      · rintro ⟨rfl, rest, rfl⟩
        exact ⟨rest, rfl⟩
      · rintro ⟨rest, hrest⟩
        rw [List.cons_append] at hrest
        cases hrest
        exact ⟨rfl, rest, rfl⟩

theorem substrB_iff (n h : List Char) :
    substrB n h = true ↔ ContainsSub n h := by
  unfold ContainsSub
  induction h with
  | nil =>
    simp only [substrB, List.isEmpty_iff]
    constructor
    · rintro rfl
      exact ⟨[], [], rfl⟩
    · rintro ⟨pre, post, hp⟩
      exact (List.append_eq_nil.mp (List.append_eq_nil.mp hp.symm).1).2
  | cons b bs ih =>
    simp only [substrB, Bool.or_eq_true, leadsWith_iff, ih]
    constructor
    · rintro (⟨rest, hrest⟩ | ⟨pre, post, hp⟩)
      · exact ⟨[], rest, by simp [hrest]⟩
      · exact ⟨b :: pre, post, by simp [hp]⟩
    · rintro ⟨pre, post, hp⟩
      cases pre with
      | nil =>
        exact Or.inl ⟨post, by simpa using hp⟩
      | cons p ps =>
        rw [List.cons_append, List.cons_append] at hp
        cases hp
        exact Or.inr ⟨ps, post, rfl⟩

instance (n h : List Char) : Decidable (ContainsSub n h) :=
  decidable_of_iff (substrB n h = true) (substrB_iff n h)

instance (q : String) (ps : List UserPermission) (u : User) :
    Decidable (MatchesSpec q ps u) :=
  inferInstanceAs (Decidable (_ ∧ _))

/-! ## JSON values (the serialisation format of the store bridge)

JSON.parse and JSON.stringify are modelled over an inductive value
type.  Numbers are modelled as integers; floating point is outside the
scope of the embedding.  Arrays and objects use mutually defined list
types so that all functions below are structurally recursive and every
theorem witness can be evaluated by the kernel.
-/

mutual
inductive Json where
  | null
  | bool (b : Bool)
  | num (n : Int)
  | str (s : String)
  | arr (elems : JsonList)
  | obj (fields : JsonFields)
deriving Repr
inductive JsonList where
  | nil
  | cons (head : Json) (tail : JsonList)
deriving Repr
inductive JsonFields where
  | nil
  | cons (key : String) (value : Json) (tail : JsonFields)
deriving Repr
end

deriving instance DecidableEq for Json
deriving instance DecidableEq for JsonList
deriving instance DecidableEq for JsonFields

/-- Hexadecimal digit character for a value below 16 (lower case, as
produced by JSON.stringify for control-character escapes). -/
def hexChar (n : Nat) : Char :=
  if n < 10 then Char.ofNat (48 + n) else Char.ofNat (87 + n)

/-- Escaping of a single character inside a JSON string literal, as
performed by JSON.stringify: quote, backslash and the named control
escapes get a two-character escape, any other control character a
\u00XX escape, and everything else is emitted verbatim. -/
def escapeChar (c : Char) : List Char :=
  if c == '"' then ['\\', '"']
  else if c == '\\' then ['\\', '\\']
  else if c.toNat == 8 then ['\\', 'b']
  else if c.toNat == 9 then ['\\', 't']
  else if c.toNat == 10 then ['\\', 'n']
  else if c.toNat == 12 then ['\\', 'f']
  else if c.toNat == 13 then ['\\', 'r']
  else if c.toNat < 32 then ['\\', 'u', '0', '0', hexChar (c.toNat / 16), hexChar (c.toNat % 16)]
  else [c]

/-- A JSON string literal: double quotes around the escaped body. -/
def quoteStr (s : String) : String :=
  ⟨'"' :: s.data.foldr (fun c acc => escapeChar c ++ acc) ['"']⟩

mutual
/-- Model of JSON.stringify (no indentation argument): the compact
serialisation used by the store bridge. -/
def stringify : Json → String
  | .null => "null"
  | .bool true => "true"
  | .bool false => "false"
  | .num n => toString n
  | .str s => quoteStr s
  | .arr es => "[" ++ stringifyElems es ++ "]"
  | .obj fs => "\x7b" ++ stringifyFields fs ++ "\x7d"
/-- Comma-separated serialisation of array elements. -/
def stringifyElems : JsonList → String
  | .nil => ""
  | .cons e .nil => stringify e
  | .cons e es => stringify e ++ "," ++ stringifyElems es
/-- Comma-separated serialisation of object members. -/
def stringifyFields : JsonFields → String
  | .nil => ""
  | .cons k v .nil => quoteStr k ++ ":" ++ stringify v
  | .cons k v fs => quoteStr k ++ ":" ++ stringify v ++ "," ++ stringifyFields fs
end

/-! ### JSON.parse -/

/-- Whitespace skipped between JSON tokens (space, tab, line feed,
carriage return). -/
def jsonWSB (c : Char) : Bool :=
  c.toNat == 32 || c.toNat == 9 || c.toNat == 10 || c.toNat == 13

/-- Skip insignificant whitespace. -/
def skipJsonWS (cs : List Char) : List Char := cs.dropWhile jsonWSB

/-- Value of a hexadecimal digit character, if it is one. -/
def hexDigitVal (c : Char) : Option Nat :=
  if 48 ≤ c.toNat ∧ c.toNat ≤ 57 then some (c.toNat - 48)
  else if 97 ≤ c.toNat ∧ c.toNat ≤ 102 then some (c.toNat - 87)
  else if 65 ≤ c.toNat ∧ c.toNat ≤ 70 then some (c.toNat - 55)
  else none

/-- Decimal digit test. -/
def digitB (c : Char) : Bool := 48 ≤ c.toNat && c.toNat ≤ 57

/-- Numeric value of a list of decimal digit characters. -/
def natFromDigits (ds : List Char) : Nat :=
  ds.foldl (fun n c => n * 10 + (c.toNat - 48)) 0

/-- Body of a JSON string literal after the opening quote: returns the
decoded characters and the input after the closing quote, or none when
the literal is unterminated or contains an invalid escape or a raw
control character. -/
def parseStrChars : List Char → Option (List Char × List Char)
  | [] => none
  | c :: cs =>
    if c == '"' then some ([], cs)
    else if c == '\\' then
      match cs with
      | [] => none
      | e :: cs1 =>
        if e == '"' then (parseStrChars cs1).map (fun r => ('"' :: r.1, r.2))
        else if e == '\\' then (parseStrChars cs1).map (fun r => ('\\' :: r.1, r.2))
        else if e == '/' then (parseStrChars cs1).map (fun r => ('/' :: r.1, r.2))
        else if e == 'b' then (parseStrChars cs1).map (fun r => (Char.ofNat 8 :: r.1, r.2))
        else if e == 'f' then (parseStrChars cs1).map (fun r => (Char.ofNat 12 :: r.1, r.2))
        else if e == 'n' then (parseStrChars cs1).map (fun r => ('\n' :: r.1, r.2))
        else if e == 'r' then (parseStrChars cs1).map (fun r => ('\r' :: r.1, r.2))
        else if e == 't' then (parseStrChars cs1).map (fun r => ('\t' :: r.1, r.2))
        else if e == 'u' then
          match cs1 with
          | h1 :: h2 :: h3 :: h4 :: rest =>
            match hexDigitVal h1, hexDigitVal h2, hexDigitVal h3, hexDigitVal h4 with
            | some a, some b, some c2, some d =>
              (parseStrChars rest).map
                (fun r => (Char.ofNat (((a * 16 + b) * 16 + c2) * 16 + d) :: r.1, r.2))
            | _, _, _, _ => none
          | _ => none
        else none
    else if c.toNat < 32 then none
    else (parseStrChars cs).map (fun r => (c :: r.1, r.2))

/-- An unsigned JSON integer token (digits, no redundant leading
zero). -/
def parseNatToken (cs : List Char) : Option (Nat × List Char) :=
  let ds := cs.takeWhile digitB
  if ds.isEmpty then none
  else if 1 < ds.length ∧ ds.head? = some '0' then none
  else some (natFromDigits ds, cs.dropWhile digitB)

/-- A JSON integer token with optional leading minus sign. -/
def parseIntToken : List Char → Option (Int × List Char)
  | '-' :: rest => (parseNatToken rest).map (fun r => (-(r.1 : Int), r.2))
  | cs => (parseNatToken cs).map (fun r => ((r.1 : Int), r.2))

mutual
/-- Recursive-descent JSON value parser.  The fuel argument bounds the
nesting of recursive calls; jsonParse supplies enough fuel for any
input of the given length. -/
def parseValue : Nat → List Char → Option (Json × List Char)
  | 0, _ => none
  | Nat.succ fuel, cs =>
    match skipJsonWS cs with
    | [] => none
    | c :: rest =>
      if c == 'n' then
        match rest with
        | 'u' :: 'l' :: 'l' :: r => some (Json.null, r)
        | _ => none
      else if c == 't' then
        match rest with
        | 'r' :: 'u' :: 'e' :: r => some (Json.bool true, r)
        | _ => none
      else if c == 'f' then
        match rest with
        | 'a' :: 'l' :: 's' :: 'e' :: r => some (Json.bool false, r)
        | _ => none
      else if c == '"' then
        (parseStrChars rest).map (fun r => (Json.str ⟨r.1⟩, r.2))
      else if c == '[' then
        match skipJsonWS rest with
        | ']' :: r => some (Json.arr .nil, r)
        | _ => (parseElems fuel rest).map (fun r => (Json.arr r.1, r.2))
      else if c == '\x7b' then
        match skipJsonWS rest with
        | '\x7d' :: r => some (Json.obj .nil, r)
        | _ => (parseFields fuel rest).map (fun r => (Json.obj r.1, r.2))
      else if c == '-' || digitB c then
        (parseIntToken (c :: rest)).map (fun r => (Json.num r.1, r.2))
      else none
/-- One or more comma-separated array elements followed by the closing
bracket. -/
def parseElems : Nat → List Char → Option (JsonList × List Char)
  | 0, _ => none
  | Nat.succ fuel, cs =>
    match parseValue fuel cs with
    | none => none
    | some (v, rest) =>
      match skipJsonWS rest with
      | ',' :: r =>
        match parseElems fuel r with
        | none => none
        | some (vs, r2) => some (.cons v vs, r2)
      | ']' :: r => some (.cons v .nil, r)
      | _ => none
/-- One or more comma-separated object members followed by the closing
brace. -/
def parseFields : Nat → List Char → Option (JsonFields × List Char)
  | 0, _ => none
  | Nat.succ fuel, cs =>
    match skipJsonWS cs with
    | '"' :: rest =>
      match parseStrChars rest with
      | none => none
      | some (key, rest1) =>
        match skipJsonWS rest1 with
        | ':' :: rest2 =>
          match parseValue fuel rest2 with
          | none => none
          | some (v, rest3) =>
            match skipJsonWS rest3 with
            | ',' :: r =>
              match parseFields fuel r with
              | none => none
              | some (fs, r2) => some (.cons ⟨key⟩ v fs, r2)
            | '\x7d' :: r => some (.cons ⟨key⟩ v .nil, r)
            | _ => none
        | _ => none
    | _ => none
end

/-- Model of JSON.parse: parse one value, allow trailing whitespace,
reject anything else; any failure models a thrown SyntaxError. -/
def jsonParse (s : String) : Option Json :=
  match parseValue (2 * s.data.length + 2) s.data with
  | some (v, rest) => if (skipJsonWS rest).isEmpty then some v else none
  | none => none

/-! ## The external store bridge (src/hooks/useLocalStorage.ts)

The hook is generic in the value type associated with the key; values
are modelled as Json, the type of everything JSON.parse can produce
and JSON.stringify can consume in this embedding.  A read observes the
store through one of three behaviours: the key holds a raw string, the
key is absent (getItem returns null), or the store is unavailable and
getItem throws.  The raw observation is modelled as
Option (Option String): none models a throwing getItem, some none an
absent key, some (some s) a present raw string s.  The snapshot cache
snapshotCacheRef is modelled explicitly, and every operation returns
the cache it leaves behind.
-/

/-- The snapshot cache entry: the last parsed value together with the
serialized string it came from. -/
structure SnapCache where
  value : Json
  serialized : String
deriving DecidableEq, Repr

/-- Shared tail of every getSnapshot path: if the cached entry exists
and its serialized string matches the freshly computed one, return the
cached reference and leave the cache unchanged; otherwise replace the
cache wholesale and return the new value. -/
def cacheHitOrSet (newValue : Json) (serialized : String) (cache : Option SnapCache) :
    Json × Option SnapCache :=
  match cache with
  | some c =>
    if c.serialized == serialized then (c.value, some c)
    else (newValue, some ⟨newValue, serialized⟩)
  | none => (newValue, some ⟨newValue, serialized⟩)

/-- Model of getSnapshot.  The try branch reads the raw item: a truthy
item is parsed (serialized := item); a falsy item (null or the empty
string) selects the default (serialized := JSON.stringify default).
A throw from getItem or from JSON.parse lands in the catch branch,
which also selects the default.  Every path ends in the cache
check. -/
def getSnapshot (raw : Option (Option String)) (cache : Option SnapCache)
    (defaultValue : Json) : Json × Option SnapCache :=
  match raw with
  | some (some s) =>
    if s ≠ "" then
      match jsonParse s with
      | some v => cacheHitOrSet v s cache
      | none => cacheHitOrSet defaultValue (stringify defaultValue) cache
    else cacheHitOrSet defaultValue (stringify defaultValue) cache
  | some none => cacheHitOrSet defaultValue (stringify defaultValue) cache
  | none => cacheHitOrSet defaultValue (stringify defaultValue) cache

/-- Model of getServerSnapshot: the store is not consulted at all; the
default value is returned through the same cache check. -/
def getServerSnapshot (cache : Option SnapCache) (defaultValue : Json) :
    Json × Option SnapCache :=
  cacheHitOrSet defaultValue (stringify defaultValue) cache

/-- The serialized string a getSnapshot call freshly computes before
the cache check: the raw item when it is truthy and parses, the
stringified default on every other path. -/
def freshSerialized (raw : Option (Option String)) (defaultValue : Json) : String :=
  match raw with
  | some (some s) =>
    if s ≠ "" then
      match jsonParse s with
      | some _ => s
      | none => stringify defaultValue
    else stringify defaultValue
  | _ => stringify defaultValue

/-- Specification-level read result, from the words of the
specification: the JSON-parse of the raw stored string when one is
present and parses, otherwise the caller-supplied default. -/
def specRead (raw : Option (Option String)) (defaultValue : Json) : Json :=
  match raw with
  | some (some s) =>
    match jsonParse s with
    | some v => v
    | none => defaultValue
  | _ => defaultValue

/-- Well-formedness of a cache entry with respect to a default value:
the entry is absent, or records a successful parse of its serialized
string, or records the default paired with its serialisation.  Every
cache the bridge actually produces satisfies this. -/
def CacheWF (cache : Option SnapCache) (defaultValue : Json) : Prop :=
  match cache with
  | none => True
  | some c =>
    jsonParse c.serialized = some c.value ∨
    (c.serialized = stringify defaultValue ∧ c.value = defaultValue)

instance (cache : Option SnapCache) (d : Json) : Decidable (CacheWF cache d) :=
  match cache with
  | none => isTrue trivial
  | some _ => inferInstanceAs (Decidable (_ ∨ _))

/-- Observable actions of the write path, in program order. -/
inductive BridgeAction where
  | write (serialized : String)
  | dispatch
deriving DecidableEq, Repr

/-- Result of a setValue call: the resulting raw store content, the
resulting snapshot cache, whether the same-tab notification event was
dispatched, and the trace of applied actions in order. -/
structure SetResult where
  raw : Option (Option String)
  cache : Option SnapCache
  dispatched : Bool
  trace : List BridgeAction
deriving DecidableEq, Repr

/-- Model of setValue.  A function argument is applied to the current
snapshot (which runs getSnapshot and may replace the cache); the next
value is serialized and written; the same-tab notification is
dispatched only after a successful write.  A throwing setItem
(writeOk = false) is swallowed: no store change, no dispatch. -/
def setValue (raw : Option (Option String)) (writeOk : Bool) (cache : Option SnapCache)
    (defaultValue : Json) (value : Json ⊕ (Json → Json)) : SetResult :=
  let p : Json × Option SnapCache :=
    match value with
    | .inl v => (v, cache)
    | .inr f =>
      let s := getSnapshot raw cache defaultValue
      (f s.1, s.2)
  let serialized := stringify p.1
  if writeOk then
    { raw := some (some serialized), cache := p.2, dispatched := true,
      trace := [.write serialized, .dispatch] }
  else
    { raw := raw, cache := p.2, dispatched := false, trace := [] }

/-- The next value a setValue call computes from its argument. -/
def nextValue (raw : Option (Option String)) (cache : Option SnapCache)
    (defaultValue : Json) : Json ⊕ (Json → Json) → Json
  | .inl v => v
  | .inr f => f (getSnapshot raw cache defaultValue).1

/-! ## The dashboard state controller
(src/features/user-dashboard/context/UserDashboardContext.tsx) -/

/-- The persisted dashboard state. -/
structure UserDashboardState where
  searchQuery : String
  selectedPermissions : List UserPermission
deriving DecidableEq, Repr

/-- The updater function passed to setState by togglePermission: the
permission is removed when present, appended when absent; the search
query field is carried over by the spread. -/
def togglePermission (permission : UserPermission) (prevState : UserDashboardState) :
    UserDashboardState :=
  let updatedPermissions :=
    if prevState.selectedPermissions.contains permission then
      prevState.selectedPermissions.filter (fun p => p != permission)
    else
      prevState.selectedPermissions ++ [permission]
  { prevState with selectedPermissions := updatedPermissions }

/-! ## The fake-async simulator state (src/hooks/useAsync.ts)

The internal state of useAsync is the discriminated union of the
loading, error and success shapes; the retry callback carried by the
returned result does not affect the shape.  The Error object of the
error state is modelled by its message.
-/

/-- Shape of the internal useAsync state: the union of the loading,
error and success record shapes of the source. -/
structure AsyncState (T : Type) where
  data : Option T
  isLoading : Bool
  isError : Bool
  isSuccess : Bool
  error : Option String

/-- Initial useAsync state (the useState initialiser). -/
def initialAsyncState (T : Type) : AsyncState T :=
  { data := none, isLoading := true, isError := false, isSuccess := false, error := none }

/-- The state transitions of useAsync: the effect body resets to the
loading shape whenever the data changes or retry toggles the refetch
trigger; the delayed callback resolves to the error shape or to the
success shape carrying the input data. -/
inductive AsyncEvent (T : Type) where
  | reset
  | resolveSuccess (data : T)
  | resolveError

/-- The literal state written by each setState call of useAsync. -/
def asyncStep (T : Type) : AsyncState T → AsyncEvent T → AsyncState T
  | _, .reset =>
    { data := none, isLoading := true, isError := false, isSuccess := false, error := none }
  | _, .resolveSuccess d =>
    { data := some d, isLoading := false, isError := false, isSuccess := true, error := none }
  | _, .resolveError =>
    { data := none, isLoading := false, isError := true, isSuccess := false,
      error := some "Simulated async operation failed" }

/-- The state invariant of claim C10: exactly one of the three flags
is set, the data field is present exactly in the success state, and an
error value is carried exactly in the error state. -/
def AsyncInv {T : Type} (s : AsyncState T) : Prop :=
  ((s.isLoading = true ∧ s.isError = false ∧ s.isSuccess = false) ∨
   (s.isLoading = false ∧ s.isError = true ∧ s.isSuccess = false) ∨
   (s.isLoading = false ∧ s.isError = false ∧ s.isSuccess = true)) ∧
  (s.data.isSome = true ↔ s.isSuccess = true) ∧
  (s.error.isSome = true ↔ s.isError = true)

/-! ## Lemmas about the string primitives and the filter -/

theorem toNat_charOfNat {n : Nat} (h : n < 55296) : (Char.ofNat n).toNat = n := by
  have hv : n.isValidChar := Or.inl h
  unfold Char.ofNat
  rw [dif_pos hv]
  unfold Char.ofNatAux Char.toNat
  simp [UInt32.toNat, BitVec.toNat_ofNatLt]

theorem lowerChar_upperChar (c : Char) : lowerChar (upperChar c) = lowerChar c := by
  unfold upperChar
  by_cases h : 97 ≤ c.toNat ∧ c.toNat ≤ 122
  · rw [if_pos h]
    have hlt : c.toNat - 32 < 55296 := by omega
    have ht : (Char.ofNat (c.toNat - 32)).toNat = c.toNat - 32 := toNat_charOfNat hlt
    unfold lowerChar
    rw [ht, if_pos (by omega), if_neg (by omega)]
    have : c.toNat - 32 + 32 = c.toNat := by omega
    rw [this, Char.ofNat_toNat]
  · rw [if_neg h]

theorem map_lowerChar_upperChar (l : List Char) :
    (l.map upperChar).map lowerChar = l.map lowerChar := by
  rw [List.map_map]
  exact List.map_congr_left fun c _ => lowerChar_upperChar c

theorem trimStart_ws_append (ws l : List Char) (h : ∀ c ∈ ws, isJsWS c = true) :
    trimStart (ws ++ l) = trimStart l := by
  unfold trimStart
  rw [List.dropWhile_append, List.dropWhile_eq_nil_iff.mpr h]
  simp

theorem trimEnd_append_ws (l ws : List Char) (h : ∀ c ∈ ws, isJsWS c = true) :
    trimEnd (l ++ ws) = trimEnd l := by
  unfold trimEnd
  rw [List.reverse_append, List.dropWhile_append,
    List.dropWhile_eq_nil_iff.mpr (by simpa using h)]
  simp

theorem trimJS_pad (l : List Char) :
    trimJS ([' ', ' '] ++ l ++ [' ', ' ']) = trimJS l := by
  have hws : ∀ c ∈ [' ', ' '], isJsWS c = true := by decide
  unfold trimJS
  rw [List.append_assoc, trimStart_ws_append _ _ hws]
  unfold trimStart
  rw [List.dropWhile_append]
  by_cases h : (l.dropWhile isJsWS).isEmpty
  · rw [if_pos h]
    rw [List.isEmpty_iff.mp h]
    rfl
  · rw [if_neg h]
    exact trimEnd_append_ws _ _ hws

theorem normalizeQuery_upper (q : String) :
    normalizeQuery (jsToUpper q) = normalizeQuery q := by
  unfold normalizeQuery jsToUpper
  show collapseWS (trimJS ((q.data.map upperChar).map lowerChar)) = _
  rw [map_lowerChar_upperChar]

theorem normalizeQuery_pad (q : String) :
    normalizeQuery ("  " ++ q ++ "  ") = normalizeQuery q := by
  unfold normalizeQuery
  have hd : ("  " ++ q ++ "  ").data = [' ', ' '] ++ q.data ++ [' ', ' '] := by
    rw [String.data_append, String.data_append]
  rw [hd, List.map_append, List.map_append]
  have hsp : ([' ', ' '] : List Char).map lowerChar = [' ', ' '] := by decide
  rw [hsp, trimJS_pad]

theorem filterUsers_congr_query (users : List User) (q1 q2 : String)
    (ps : List UserPermission) (h : normalizeQuery q1 = normalizeQuery q2) :
    filterUsers users q1 ps = filterUsers users q2 ps := by
  unfold filterUsers
  simp only [h]

/-! ## Claims about the filter -/

/-- C1.  filterUsers returns exactly the users, in their original
order, whose normalised name matches the normalised query (or the
normalised query is empty) and whose permission is selected (or the
selection is empty): the code's boolean pipeline coincides with the
specification predicate MatchesSpec. -/
theorem filterUsers_characterisation (users : List User) (q : String)
    (ps : List UserPermission) :
    filterUsers users q ps = users.filter fun u => decide (MatchesSpec q ps u) := by
  unfold filterUsers
  apply List.filter_congr
  intro u _
  show (_ && _) = _
  by_cases h : MatchesSpec q ps u
  · obtain ⟨h1, h2⟩ := h
    have e1 : (normalizeQuery q == [] || substrB (normalizeQuery q) (normalizeName u.name)) = true := by
      rcases h1 with h1 | h1
      · simp [h1]
      · simp [(substrB_iff _ _).mpr h1]
    have e2 : (ps.length == 0 || ps.contains u.permission) = true := by
      rcases h2 with h2 | h2
      · subst h2
        simp
      · rw [Bool.or_eq_true]
        right
        exact List.elem_iff.mpr h2
    rw [e1, e2, decide_eq_true ⟨h1, h2⟩]
    rfl
  · rw [decide_eq_false h]
    unfold MatchesSpec at h
    rw [not_and_or] at h
    rcases h with h1 | h2
    · rw [not_or] at h1
      have hA : (normalizeQuery q == [] ||
          substrB (normalizeQuery q) (normalizeName u.name)) = false := by
        rw [Bool.or_eq_false_iff]
        refine ⟨beq_eq_false_iff_ne.mpr h1.1, ?_⟩
        rw [Bool.eq_false_iff]
        intro hc
        exact h1.2 ((substrB_iff _ _).mp hc)
      rw [hA, Bool.false_and]
    · rw [not_or] at h2
      have hB : (ps.length == 0 || ps.contains u.permission) = false := by
        rw [Bool.or_eq_false_iff]
        constructor
        · rw [beq_eq_false_iff_ne]
          intro hc
          exact h2.1 (List.length_eq_zero.mp hc)
        · rw [Bool.eq_false_iff]
          intro hc
          exact h2.2 (List.elem_iff.mp hc)
      rw [hB, Bool.and_false]

/-- C5.  The filter result is invariant under upper-casing the query
and under padding the query with two spaces on each side. -/
theorem filterUsers_query_invariance (users : List User) (q : String)
    (ps : List UserPermission) :
    filterUsers users (jsToUpper q) ps = filterUsers users q ps ∧
    filterUsers users ("  " ++ q ++ "  ") ps = filterUsers users q ps :=
  ⟨filterUsers_congr_query users _ q ps (normalizeQuery_upper q),
   filterUsers_congr_query users _ q ps (normalizeQuery_pad q)⟩

/-- C6.  With the empty query and the empty permission selection the
filter keeps every record in its original order: the result is equal
to the input sequence.  (That the platform's filter allocates a fresh
container is a memory-identity fact with no counterpart in the value
semantics of the embedding.) -/
theorem filterUsers_identity (users : List User) :
    filterUsers users "" [] = users := by
  unfold filterUsers
  have h : normalizeQuery "" = [] := rfl
  simp [h]

/-- C7.  With a fixed empty query the filter is monotone in the
permission selection: every user kept under a non-empty selection p1
is kept under any superset p2. -/
theorem filterUsers_permission_monotone (users : List User)
    (p1 p2 : List UserPermission) (hsub : p1 ⊆ p2) (hne : p1 ≠ []) :
    ∀ u ∈ filterUsers users "" p1, u ∈ filterUsers users "" p2 := by
  intro u hu
  unfold filterUsers at hu ⊢
  rw [List.mem_filter] at hu ⊢
  refine ⟨hu.1, ?_⟩
  have hpred := hu.2
  simp only [Bool.and_eq_true, Bool.or_eq_true, beq_iff_eq] at hpred ⊢
  refine ⟨hpred.1, ?_⟩
  rcases hpred.2 with hlen | hmem
  · exact absurd (List.length_eq_zero.mp hlen) hne
  · exact Or.inr (List.elem_iff.mpr (hsub (List.elem_iff.mp hmem)))

/-- C8.  The togglePermission updater preserves the at-most-once
invariant of the selected permission list, leaves the search query
unchanged, removes the toggled permission when it was present (keeping
every other permission), and appends it when it was absent. -/
theorem togglePermission_spec (s : UserDashboardState) (p : UserPermission)
    (h : ∀ x, s.selectedPermissions.count x ≤ 1) :
    (∀ x, (togglePermission p s).selectedPermissions.count x ≤ 1) ∧
    (togglePermission p s).searchQuery = s.searchQuery ∧
    (p ∈ s.selectedPermissions →
      p ∉ (togglePermission p s).selectedPermissions ∧
      ∀ x, x ≠ p →
        (x ∈ (togglePermission p s).selectedPermissions ↔ x ∈ s.selectedPermissions)) ∧
    (p ∉ s.selectedPermissions →
      (togglePermission p s).selectedPermissions = s.selectedPermissions ++ [p]) := by
  unfold togglePermission
  by_cases hc : s.selectedPermissions.contains p = true
  · rw [if_pos hc]
    refine ⟨?_, rfl, ?_, ?_⟩
    · intro x
      exact le_trans ((List.filter_sublist _).count_le x) (h x)
    · intro _
      constructor
      · intro hmem
        have := (List.mem_filter.mp hmem).2
        simp at this
      · intro x hx
        rw [List.mem_filter]
        simp [hx]
    · intro hn
      exact absurd (List.elem_iff.mp hc) hn
  · rw [if_neg hc]
    have hnot : p ∉ s.selectedPermissions := fun hm => hc (List.elem_iff.mpr hm)
    refine ⟨?_, rfl, ?_, fun _ => rfl⟩
    · intro x
      rw [List.count_append]
      by_cases hx : x = p
      · subst hx
        rw [List.count_eq_zero.mpr hnot]
        simp
      · have : List.count x [p] = 0 := by
          rw [List.count_eq_zero]
          simp [hx]
        rw [this]
        simpa using h x
    · intro hm
      exact absurd hm hnot

/-- Witness for C8 at a concrete state and permission. -/
theorem togglePermission_spec_witness :
    (∀ x, (UserDashboardState.mk "bob" [.admin, .editor]).selectedPermissions.count x ≤ 1) ∧
    ((∀ x, (togglePermission .admin
        (UserDashboardState.mk "bob" [.admin, .editor])).selectedPermissions.count x ≤ 1) ∧
      (togglePermission .admin
        (UserDashboardState.mk "bob" [.admin, .editor])).searchQuery =
        (UserDashboardState.mk "bob" [.admin, .editor]).searchQuery ∧
      (UserPermission.admin ∈
          (UserDashboardState.mk "bob" [.admin, .editor]).selectedPermissions →
        UserPermission.admin ∉ (togglePermission .admin
          (UserDashboardState.mk "bob" [.admin, .editor])).selectedPermissions ∧
        ∀ x, x ≠ UserPermission.admin →
          (x ∈ (togglePermission .admin
              (UserDashboardState.mk "bob" [.admin, .editor])).selectedPermissions ↔
            x ∈ (UserDashboardState.mk "bob" [.admin, .editor]).selectedPermissions)) ∧
      (UserPermission.admin ∉
          (UserDashboardState.mk "bob" [.admin, .editor]).selectedPermissions →
        (togglePermission .admin
            (UserDashboardState.mk "bob" [.admin, .editor])).selectedPermissions =
          (UserDashboardState.mk "bob" [.admin, .editor]).selectedPermissions ++ [.admin])) :=
  ⟨by decide, togglePermission_spec _ _ (by decide)⟩

/-- C10.  Every state the fake-async simulator produces — the initial
state and the target of every transition — has exactly one of the
isLoading, isError, isSuccess flags set, carries data exactly in the
success state, and carries an error value exactly in the error
state. -/
theorem useAsync_state_invariant (T : Type) (s : AsyncState T) (e : AsyncEvent T) :
    AsyncInv (initialAsyncState T) ∧ AsyncInv (asyncStep T s e) := by
  constructor
  · exact ⟨Or.inl ⟨rfl, rfl, rfl⟩, by simp [initialAsyncState], by simp [initialAsyncState]⟩
  · cases e with
    | reset => exact ⟨Or.inl ⟨rfl, rfl, rfl⟩, by simp [asyncStep], by simp [asyncStep]⟩
    | resolveSuccess d =>
      exact ⟨Or.inr (Or.inr ⟨rfl, rfl, rfl⟩), by simp [asyncStep], by simp [asyncStep]⟩
    | resolveError =>
      exact ⟨Or.inr (Or.inl ⟨rfl, rfl, rfl⟩), by simp [asyncStep], by simp [asyncStep]⟩

/-- Witness for C7 at a concrete record list and concrete permission
selections. -/
theorem filterUsers_permission_monotone_witness :
    (([UserPermission.admin] : List UserPermission) ⊆
        [UserPermission.admin, UserPermission.editor] ∧
      ([UserPermission.admin] : List UserPermission) ≠ []) ∧
    (∀ u ∈ filterUsers [⟨"Engineer", "George Harris", .admin, "Core", "george@example.com"⟩]
        "" [UserPermission.admin],
      u ∈ filterUsers [⟨"Engineer", "George Harris", .admin, "Core", "george@example.com"⟩]
        "" [UserPermission.admin, UserPermission.editor]) :=
  ⟨⟨by simp, by simp⟩,
   filterUsers_permission_monotone _ _ _ (by simp) (by simp)⟩

/-! ## Lemmas about the store bridge -/

theorem cacheHitOrSet_snd (v : Json) (s : String) (cache : Option SnapCache) :
    (cacheHitOrSet v s cache).2 = some ⟨(cacheHitOrSet v s cache).1, s⟩ := by
  cases cache with
  | none => rfl
  | some c =>
    obtain ⟨cv, cs⟩ := c
    simp only [cacheHitOrSet]
    by_cases h : cs == s
    · rw [if_pos h]
      have : cs = s := beq_iff_eq.mp h
      subst this
      rfl
    · rw [if_neg h]

theorem cacheHitOrSet_stable (v : Json) (s : String) (cache : Option SnapCache) :
    cacheHitOrSet v s (cacheHitOrSet v s cache).2 = cacheHitOrSet v s cache := by
  rw [cacheHitOrSet_snd v s cache]
  show cacheHitOrSet v s (some ⟨(cacheHitOrSet v s cache).1, s⟩) = _
  simp only [cacheHitOrSet]
  rw [if_pos (by simp)]
  exact Prod.ext rfl (cacheHitOrSet_snd v s cache).symm

theorem getSnapshot_as_cacheHit (raw : Option (Option String)) (cache : Option SnapCache)
    (d : Json) :
    getSnapshot raw cache d = cacheHitOrSet (specRead raw d) (freshSerialized raw d) cache := by
  match raw with
  | none => rfl
  | some none => rfl
  | some (some s) =>
    by_cases hs : s ≠ ""
    · simp only [getSnapshot, specRead, freshSerialized, if_pos hs]
      cases hp : jsonParse s with
      | none => rfl
      | some v => rfl
    · rw [not_not] at hs
      subst hs
      rfl

theorem cacheHitOrSet_spec (v : Json) (s : String) (cache : Option SnapCache) (d : Json)
    (hwf : CacheWF cache d) (hrt : jsonParse (stringify d) = some d)
    (hkey : jsonParse s = some v ∨ (s = stringify d ∧ v = d)) :
    (cacheHitOrSet v s cache).1 = v ∧ CacheWF (cacheHitOrSet v s cache).2 d := by
  cases cache with
  | none => exact ⟨rfl, hkey⟩
  | some c =>
    simp only [cacheHitOrSet]
    by_cases h : c.serialized == s
    · rw [if_pos h]
      have hs : c.serialized = s := beq_iff_eq.mp h
      refine ⟨?_, hwf⟩
      rcases hwf with hw | ⟨hw1, hw2⟩
      · rcases hkey with hk | ⟨hk1, hk2⟩
        · rw [hs] at hw
          exact Option.some.inj (hw.symm.trans hk)
        · rw [hs, hk1] at hw
          rw [hk2]
          exact Option.some.inj (hw.symm.trans hrt)
      · rcases hkey with hk | ⟨hk1, hk2⟩
        · rw [← hs, hw1] at hk
          rw [hw2]
          exact Option.some.inj (hrt.symm.trans hk)
        · rw [hw2, hk2]
    · rw [if_neg h]
      exact ⟨rfl, hkey⟩

/-! ## Claims about the store bridge -/

/-- C2.  Reference stability of the snapshot cache: re-reading with
the cache a read left behind returns the same value and the same
cache, both for getSnapshot under every store behaviour (item present,
item absent, store unavailable) and for getServerSnapshot; and a read
whose freshly computed serialized string equals the cached one returns
the cached value and leaves the cache untouched. -/
theorem snapshot_reference_stability :
    (∀ raw cache d, getSnapshot raw (getSnapshot raw cache d).2 d = getSnapshot raw cache d) ∧
    (∀ cache d, getServerSnapshot (getServerSnapshot cache d).2 d = getServerSnapshot cache d) ∧
    (∀ raw d (c : SnapCache), freshSerialized raw d = c.serialized →
      getSnapshot raw (some c) d = (c.value, some c)) := by
  refine ⟨?_, ?_, ?_⟩
  · intro raw cache d
    rw [getSnapshot_as_cacheHit, getSnapshot_as_cacheHit]
    exact cacheHitOrSet_stable _ _ cache
  · intro cache d
    exact cacheHitOrSet_stable _ _ cache
  · intro raw d c h
    rw [getSnapshot_as_cacheHit]
    obtain ⟨cv, cs⟩ := c
    simp only [cacheHitOrSet]
    rw [if_pos (beq_iff_eq.mpr h.symm)]

/-- Witness for C2's cache-hit clause at a concrete store state and
cache. -/
theorem snapshot_reference_stability_witness :
    freshSerialized (some none) (Json.str "D") =
      (SnapCache.mk (Json.str "D") "\"D\"").serialized ∧
    getSnapshot (some none) (some (SnapCache.mk (Json.str "D") "\"D\"")) (Json.str "D") =
      ((SnapCache.mk (Json.str "D") "\"D\"").value,
        some (SnapCache.mk (Json.str "D") "\"D\"")) :=
  ⟨by decide, snapshot_reference_stability.2.2 _ _ _ (by decide)⟩

/-- C3.  Under a well-formed cache (and a default value that
round-trips through serialisation) a read never throws and returns the
JSON-parse of the raw stored string when one is present and parses,
and the caller-supplied default otherwise — in particular on invalid
JSON and when the store itself throws; well-formedness of the cache is
preserved. -/
theorem bridge_read_spec (raw : Option (Option String)) (cache : Option SnapCache) (d : Json)
    (hwf : CacheWF cache d) (hrt : jsonParse (stringify d) = some d) :
    (getSnapshot raw cache d).1 = specRead raw d ∧
    CacheWF (getSnapshot raw cache d).2 d := by
  rw [getSnapshot_as_cacheHit]
  refine cacheHitOrSet_spec _ _ cache d hwf hrt ?_
  match raw with
  | none => exact Or.inr ⟨rfl, rfl⟩
  | some none => exact Or.inr ⟨rfl, rfl⟩
  | some (some s) =>
    by_cases hs : s ≠ ""
    · simp only [specRead, freshSerialized, if_pos hs]
      cases hp : jsonParse s with
      | none => exact Or.inr ⟨rfl, rfl⟩
      | some v => exact Or.inl hp
    · rw [not_not] at hs
      subst hs
      exact Or.inr ⟨rfl, rfl⟩

/-- Witness for C3: reading the corrupt raw string of the
specification falls back to the default. -/
theorem bridge_read_spec_witness :
    (CacheWF none (Json.str "D") ∧
      jsonParse (stringify (Json.str "D")) = some (Json.str "D")) ∧
    ((getSnapshot (some (some "not valid json \x7b")) none (Json.str "D")).1 =
        specRead (some (some "not valid json \x7b")) (Json.str "D") ∧
      CacheWF (getSnapshot (some (some "not valid json \x7b")) none (Json.str "D")).2
        (Json.str "D")) :=
  ⟨⟨trivial, by decide⟩, bridge_read_spec _ _ _ trivial (by decide)⟩

/-- C9.  A present but empty raw string is treated exactly like an
absent entry, and under a well-formed cache the read returns the
default value. -/
theorem empty_string_read_as_absent (cache : Option SnapCache) (d : Json) :
    getSnapshot (some (some "")) cache d = getSnapshot (some none) cache d ∧
    (CacheWF cache d → jsonParse (stringify d) = some d →
      (getSnapshot (some (some "")) cache d).1 = d) := by
  constructor
  · rfl
  · intro hwf hrt
    rw [getSnapshot_as_cacheHit]
    exact (cacheHitOrSet_spec _ _ cache d hwf hrt (Or.inr ⟨rfl, rfl⟩)).1

/-- Witness for C9 at a concrete default value. -/
theorem empty_string_read_as_absent_witness :
    (CacheWF none (Json.str "D") ∧
      jsonParse (stringify (Json.str "D")) = some (Json.str "D")) ∧
    (getSnapshot (some (some "")) none (Json.str "D") =
        getSnapshot (some none) none (Json.str "D") ∧
      (getSnapshot (some (some "")) none (Json.str "D")).1 = Json.str "D") :=
  ⟨⟨trivial, by decide⟩,
   ⟨(empty_string_read_as_absent none (Json.str "D")).1,
    (empty_string_read_as_absent none (Json.str "D")).2 trivial (by decide)⟩⟩

/-- Counterexample to C4 as stated: with an updater argument, a store
whose content differs from the cached serialisation, and a throwing
write, setValue leaves the store untouched and dispatches nothing but
the cached in-memory value does change (the read that computes the
previous value refreshes it from the store). -/
theorem setValue_failed_write_cache_counterexample :
    (setValue (some (some "1")) false (some ⟨Json.num 0, "0"⟩) Json.null
        (Sum.inr id)).cache ≠ some ⟨Json.num 0, "0"⟩ := by
  decide

/-- C4 (amended).  setValue serialises the next value and writes it,
and dispatches the same-tab notification only after that write, in
that order; when the write throws, setValue returns without throwing,
leaves the store unchanged and dispatches nothing, and the cache is
unchanged for a literal argument while for an updater argument it is
exactly the cache left by the read of the previous value. -/
theorem setValue_write_before_notify (raw : Option (Option String)) (writeOk : Bool)
    (cache : Option SnapCache) (d : Json) (value : Json ⊕ (Json → Json)) :
    (writeOk = true →
      (setValue raw writeOk cache d value).trace =
        [BridgeAction.write (stringify (nextValue raw cache d value)),
          BridgeAction.dispatch] ∧
      (setValue raw writeOk cache d value).raw =
        some (some (stringify (nextValue raw cache d value))) ∧
      (setValue raw writeOk cache d value).dispatched = true) ∧
    (writeOk = false →
      (setValue raw writeOk cache d value).raw = raw ∧
      (setValue raw writeOk cache d value).dispatched = false ∧
      (setValue raw writeOk cache d value).trace = [] ∧
      (setValue raw writeOk cache d value).cache =
        (match value with
          | .inl _ => cache
          | .inr _ => (getSnapshot raw cache d).2)) := by
  cases value <;> constructor <;> intro h <;> subst h <;> simp [setValue, nextValue]

/-- Witness for C4 (amended) at concrete inputs, covering both a
successful and a throwing write. -/
theorem setValue_write_before_notify_witness :
    ((setValue (some none) true none Json.null (Sum.inl (Json.num 7))).trace =
        [BridgeAction.write
            (stringify (nextValue (some none) none Json.null (Sum.inl (Json.num 7)))),
          BridgeAction.dispatch] ∧
      (setValue (some none) true none Json.null (Sum.inl (Json.num 7))).raw =
        some (some (stringify (nextValue (some none) none Json.null (Sum.inl (Json.num 7))))) ∧
      (setValue (some none) true none Json.null (Sum.inl (Json.num 7))).dispatched = true) ∧
    ((setValue (some none) false none Json.null (Sum.inl (Json.num 7))).raw = some none ∧
      (setValue (some none) false none Json.null (Sum.inl (Json.num 7))).dispatched = false ∧
      (setValue (some none) false none Json.null (Sum.inl (Json.num 7))).trace = [] ∧
      (setValue (some none) false none Json.null (Sum.inl (Json.num 7))).cache = none) :=
  ⟨(setValue_write_before_notify (some none) true none Json.null (Sum.inl (Json.num 7))).1 rfl,
   (setValue_write_before_notify (some none) false none Json.null (Sum.inl (Json.num 7))).2 rfl⟩

end Dashboard
